import Mathlib

/-!
Verification development for the cache restorer of `drone-cache`
(`src/cache/restorer.go`).

The Go code is shallowly embedded.  Pure helpers become Lean functions with
the source's names (`generateKey`, `getSeparator`, `writeCacheMetadata`,
`restore`, `Restore`).  The external collaborators (storage backend, archive,
key generators, file system) are an explicit environment `Env` of outcome
functions.  Concurrency is modelled by the fact that the coordinator computes
the outcome of *every* launched task and joins them: the per-task results,
the storage fetches performed, and the metadata writes performed are recorded
in a `Trace`.  Machine-level details (goroutine scheduling order of error
appends) are fixed to destination order; claims are stated so that this
choice is immaterial (membership / iff formulations).
-/

namespace DroneCache

/-- Host operating system, modelling `runtime.GOOS`; `linux` stands for any
non-Windows GOOS value, which is the only distinction the source makes. -/
inductive OS
  | windows
  | linux
deriving DecidableEq

/-- Function `getSeparator` from `restorer.go` (lines 183-189): the host separator. -/
def getSeparator (os : OS) : String :=
  if os = OS.windows then "\\" else "/"

/-- The host separator as a character. -/
def sepChar (os : OS) : Char :=
  if os = OS.windows then '\\' else '/'

/-- Models Go `os.IsPathSeparator`: Windows accepts both slash and backslash,
other systems only slash. -/
def isSep (os : OS) (c : Char) : Bool :=
  if os = OS.windows then c == '/' || c == '\\' else c == '/'

/-- Split a character list into path components at separators. -/
def splitSep (os : OS) : List Char → List (List Char)
  | [] => [[]]
  | c :: cs =>
    if isSep os c then [] :: splitSep os cs
    else
      match splitSep os cs with
      | [] => [[c]]
      | g :: gs => (c :: g) :: gs

/-- The element-processing loop of Go `path/filepath.Clean`: drop empty and
`.` components, let `..` pop the previous component (kept literally at the
front of a relative path, dropped at the root of a rooted one). -/
def cleanStack (rooted : Bool) : List (List Char) → List (List Char) → List (List Char)
  | acc, [] => acc.reverse
  | acc, e :: rest =>
    if e = [] ∨ e = ['.'] then cleanStack rooted acc rest
    else if e = ['.', '.'] then
      match acc with
      | [] =>
        if rooted then cleanStack rooted [] rest
        else cleanStack rooted [['.', '.']] rest
      | top :: acc2 =>
        if top = ['.', '.'] then cleanStack rooted (e :: acc) rest
        else cleanStack rooted acc2 rest
    else cleanStack rooted (e :: acc) rest

/-- Join components with a separator character. -/
def joinSep (sep : Char) : List (List Char) → List Char
  | [] => []
  | [g] => g
  | g :: gs => g ++ sep :: joinSep sep gs

/-- Lexical path cleaning at the character level, following Go
`path/filepath.Clean` (output uses the host separator; Windows volume names
are not modelled, the restorer never builds them). -/
def cleanL (os : OS) : List Char → List Char
  | [] => ['.']
  | c :: cs =>
    let rooted := isSep os c
    let elems := cleanStack rooted [] (splitSep os (c :: cs))
    let body := joinSep (sepChar os) elems
    if rooted then sepChar os :: body
    else if body = [] then ['.'] else body

/-- Models Go `path/filepath.Clean`. -/
def filepathClean (os : OS) (s : String) : String :=
  String.mk (cleanL os s.toList)

/-- Models Go `path/filepath.ToSlash`: replace the host separator by `/`
(the identity on non-Windows hosts). -/
def filepathToSlash (os : OS) (s : String) : String :=
  if os = OS.windows then
    String.mk (s.toList.map (fun c => if c = '\\' then '/' else c))
  else s

/-- Models Go `path/filepath.Join`: skip leading empty elements, join the
rest with the host separator, then clean; all-empty input gives `""`. -/
def goJoin (os : OS) (elems : List String) : String :=
  match elems.dropWhile (fun e => e = "") with
  | [] => ""
  | es => filepathClean os (String.mk (joinSep (sepChar os) (es.map String.toList)))

/-- Models Go `strings.TrimPrefix` at the character level. -/
def trimPfxL (s p : List Char) : List Char :=
  if p.isPrefixOf s then s.drop p.length else s

/-- Models Go `strings.TrimPrefix`. -/
def trimPfx (s p : String) : String :=
  String.mk (trimPfxL s.toList p.toList)

/-- Models Go `strings.HasSuffix`. -/
def hasSuffix (s suff : String) : Bool :=
  suff.toList.isSuffixOf s.toList

/-! ## The restorer's data model (`src/cache/restorer.go`) -/

/-- Constant `PLUGIN_CACHE_INTEL_FILE_NAME` from `restorer.go` (line 26). -/
def PLUGIN_CACHE_INTEL_FILE_NAME : String := "plugin-cache-intel.json"

/-- Struct `CacheMetadata` as used at line 149.  The source stores the humanized
byte string `humanize.Bytes(uint64(written))`; we keep the byte count
itself, the humanization being an injective formatting detail of an
external library. -/
structure CacheMetadata where
  CacheSize : Nat
deriving DecidableEq

/-- The result of one call to `restorer.generateKey` (lines 165-181).
`crashes` is the Go nil-interface method call `r.g.Generate(...)` when no
primary generator is configured: a runtime panic, not an error return. -/
inductive GenResult
  | crashes
  | ok (key : String)
  | err (e : String)
deriving DecidableEq

/-- Outcome of the storage backend's `List` call (external collaborator):
success with the listed entry paths (the restorer reads only `e.Path` of
each entry), the `common.ErrNotImplemented` sentinel, or another error. -/
inductive ListOutcome
  | ok (entries : List String)
  | notImplemented
  | failure (e : String)
deriving DecidableEq

/-- The restorer's configuration fields (struct `restorer`, lines 29-42),
plus the host OS standing for `runtime.GOOS`.  `nspace` is the `namespace`
field. -/
structure RestorerCfg where
  goos : OS
  nspace : String
  failIfKeyNotPresent : Bool
  enableCacheKeySeparator : Bool
  backend : String
  accountID : String
deriving DecidableEq

/-- File-system behaviour seen by `writeCacheMetadata`: whether `MkdirAll`
and `WriteFile` fail. -/
structure MetaEnv where
  mkdirFails : Bool
  writeFails : Bool
deriving DecidableEq

/-- The external collaborators of one `Restore` call.  `g`/`fg` are the
primary and fallback key generators, each `none` when not configured and
otherwise carrying the outcome of `Generate` on the empty parts list (the
only way `Restore` invokes them).  `getRes` is the outcome of the storage
`Get` stream for a remote path; `extractRes dst up` is the outcome of
`Archive.Extract` into `dst` when its pipe is fed by a `Get` with outcome
`up` (an extraction reading from a failed fetch sees the pipe error). -/
structure Env where
  g : Option (Except String String)
  fg : Option (Except String String)
  list : String → ListOutcome
  getRes : String → Except String Unit
  extractRes : String → Except String Unit → Except String Nat
  metaEnv : MetaEnv

/-- Modelled from the spec: `internal.MultiError` (repo package `internal`,
not under `src/`) — a thread-safe error collector; `Add` appends one error
under a mutex, `Err` returns nil iff no error was added and otherwise the
composite carrying all added errors in order. -/
structure MultiError where
  errors : List String
deriving DecidableEq

def MultiError.add (m : MultiError) (e : String) : MultiError :=
  ⟨m.errors ++ [e]⟩

def MultiError.err (m : MultiError) : Option (List String) :=
  if m.errors = [] then none else some m.errors

/-- The outcome of one `Restore` call (lines 50-118): success, the
nil-interface crash of key generation, the fast failures (key generation
error wrapped as `generate key, ...`, missing key, listing error), or the
aggregated per-destination failures wrapped as `restore failed, ...`. -/
inductive RestoreResult
  | ok
  | crash
  | keyError (e : String)
  | keyNotFound (pfx : String)
  | listError (e : String)
  | aggregated (errs : List String)
deriving DecidableEq

/-- Observable side effects of one `Restore` call: prefixes passed to the
storage `List`, launched per-destination tasks as (remote source, local
destination) pairs, remote paths passed to the storage `Get`, and the sizes
recorded by each `writeCacheMetadata` call in task order. -/
structure Trace where
  listCalls : List String
  targets : List (String × String)
  gets : List String
  metaWrites : List Nat
deriving DecidableEq

/-! ## The restorer's operations -/

/-- Function `restorer.generateKey` (lines 165-181): try the primary generator, on
failure fall back to the fallback generator when configured and return its
result; with no primary configured the Go method call on the nil interface
panics. -/
def generateKey (g fg : Option (Except String String)) : GenResult :=
  match g with
  | none => GenResult.crashes
  | some (Except.ok key) => GenResult.ok key
  | some (Except.error e) =>
    match fg with
    | none => GenResult.err e
    | some (Except.ok key) => GenResult.ok key
    | some (Except.error e2) => GenResult.err e2

/-- Function `writeCacheMetadata` (lines 191-209): marshal (cannot fail for this
struct), create the directory, write the file; each OS step may fail with
an error return. -/
def writeCacheMetadata (me : MetaEnv) (data : CacheMetadata) (filename : String) :
    Except String Unit :=
  if me.mkdirFails then
    Except.error "failed to create directory for cache metrics file"
  else if me.writeFails then
    Except.error ("failed to write cache metrics to cache metrics file " ++ filename)
  else
    let _used := data
    Except.ok ()

/-- Function `restorer.restore` (lines 121-161): stream the object at `src` through
the pipe into the extraction at `dst`.  On extraction failure return the
wrapped error; on success call `writeCacheMetadata` with this extraction's
byte count — discarding its result, exactly as line 149 does — and return
nil.  The second component records the metadata writes performed (the
written sizes). -/
def restore (env : Env) (src dst : String) : Except String Nat × List Nat :=
  match env.extractRes dst (env.getRes src) with
  | Except.error e =>
    (Except.error ("extract files from downloaded archive, pipe reader failed, " ++ e), [])
  | Except.ok written =>
    let _discarded := writeCacheMetadata env.metaEnv ⟨written⟩ PLUGIN_CACHE_INTEL_FILE_NAME
    (Except.ok written, [written])

/-- Error wrapping of a failed task at line 104. -/
def wrapDownload (src dst e : String) : String :=
  "download from <" ++ src ++ "> to <" ++ dst ++ ">, " ++ e

/-- One step of the error collection at lines 100-106: a failing task adds
its wrapped error to the shared `MultiError`. -/
def collectErr (env : Env) (acc : MultiError) (t : String × String) : MultiError :=
  match (restore env t.1 t.2).1 with
  | Except.error e => acc.add (wrapDownload t.1 t.2 e)
  | Except.ok _ => acc

/-- The wrapped failures of a task list, in task order. -/
def taskFailures (env : Env) : List (String × String) → List String
  | [] => []
  | t :: ts =>
    match (restore env t.1 t.2).1 with
    | Except.error e => wrapDownload t.1 t.2 e :: taskFailures env ts
    | Except.ok _ => taskFailures env ts

/-- The metadata writes performed by a task list, in task order. -/
def taskMetaWrites (env : Env) : List (String × String) → List Nat
  | [] => []
  | t :: ts => (restore env t.1 t.2).2 ++ taskMetaWrites env ts

/-- Line 63: `namespace = filepath.ToSlash(filepath.Clean(r.namespace))`. -/
def nspaceOf (cfg : RestorerCfg) : String :=
  filepathToSlash cfg.goos (filepathClean cfg.goos cfg.nspace)

/-- Lines 66-69: the discovery listing prefix `filepath.Join(namespace, key)`,
with a trailing host separator appended when the separator policy asks for
one and it is absent. -/
def discoveryPfx (cfg : RestorerCfg) (key : String) : String :=
  let p := goJoin cfg.goos [nspaceOf cfg, key]
  if !hasSuffix p (getSeparator cfg.goos) && cfg.enableCacheKeySeparator then
    p ++ getSeparator cfg.goos
  else p

/-- Lines 76-78: on the `harness` backend the stripping prefix additionally
carries the routing segment `accountID + "/intel/"`. -/
def routedPfx (cfg : RestorerCfg) (p : String) : String :=
  if cfg.backend = "harness" then cfg.accountID ++ "/intel/" ++ p else p

/-- Lines 80-86: derive local destinations from listed entry paths by
trimming the (possibly routed) prefix, with the separator adjustment. -/
def deriveDsts (cfg : RestorerCfg) (p : String) (entries : List String) : List String :=
  entries.map (fun e =>
    if cfg.enableCacheKeySeparator then trimPfx e p
    else trimPfx e (p ++ getSeparator cfg.goos))

/-- Lines 65-90: when no destinations were supplied, list the store under the
discovery prefix.  `ErrNotImplemented` keeps the caller's (empty) list; any
other listing error is fatal; zero entries under the fail-if-absent policy
is fatal; otherwise append the derived destinations. -/
def discoverDsts (cfg : RestorerCfg) (lf : String → ListOutcome) (key : String)
    (dsts : List String) : Except RestoreResult (List String) :=
  if dsts.isEmpty then
    let p := discoveryPfx cfg key
    match lf p with
    | ListOutcome.ok entries =>
      if cfg.failIfKeyNotPresent && entries.isEmpty then
        Except.error (RestoreResult.keyNotFound p)
      else
        Except.ok (dsts ++ deriveDsts cfg (routedPfx cfg p) entries)
    | ListOutcome.notImplemented => Except.ok dsts
    | ListOutcome.failure e => Except.error (RestoreResult.listError e)
  else Except.ok dsts

/-- The `List` calls performed by the discovery step: exactly one, with the
discovery prefix, when the caller supplied no destinations. -/
def discoveryCalls (cfg : RestorerCfg) (dsts : List String) (key : String) : List String :=
  if dsts.isEmpty then [discoveryPfx cfg key] else []

/-- Line 93: the remote source of one destination,
`filepath.Join(namespace, key, dst)`. -/
def srcOf (cfg : RestorerCfg) (key dst : String) : String :=
  goJoin cfg.goos [nspaceOf cfg, key, dst]

/-- The per-destination tasks launched by the loop at lines 92-107: one
(remote source, local destination) pair per destination. -/
def tasksOf (cfg : RestorerCfg) (key : String) (D : List String) :
    List (String × String) :=
  D.map (fun d => (srcOf cfg key d, d))

/-- Lines 92-117: launch one task per destination (each task fetches its
source and extracts, lines 100-106), join, and return the aggregate: the
composite error when the collector is non-empty, success otherwise. -/
def runTasks (cfg : RestorerCfg) (env : Env) (lc : List String) (key : String)
    (D : List String) : RestoreResult × Trace :=
  let tasks := tasksOf cfg key D
  let m := tasks.foldl (collectErr env) ⟨[]⟩
  let tr : Trace := ⟨lc, tasks, tasks.map Prod.fst, taskMetaWrites env tasks⟩
  match m.err with
  | some es => (RestoreResult.aggregated es, tr)
  | none => (RestoreResult.ok, tr)

/-- The part of `Restore` after a successful key resolution. -/
def afterKey (cfg : RestorerCfg) (env : Env) (dsts : List String) (key : String) :
    RestoreResult × Trace :=
  match discoverDsts cfg env.list key dsts with
  | Except.error r => (r, ⟨discoveryCalls cfg dsts key, [], [], []⟩)
  | Except.ok D => runTasks cfg env (discoveryCalls cfg dsts key) key D

/-- Function `restorer.Restore` (lines 50-118): resolve the key (fast failure), run
discovery when needed (fast failure), then fan out, join and aggregate. -/
def Restore (cfg : RestorerCfg) (env : Env) (dsts : List String) :
    RestoreResult × Trace :=
  match generateKey env.g env.fg with
  | GenResult.crashes => (RestoreResult.crash, ⟨[], [], [], []⟩)
  | GenResult.err e => (RestoreResult.keyError ("generate key, " ++ e), ⟨[], [], [], []⟩)
  | GenResult.ok key => afterKey cfg env dsts key

/-! ## Auxiliary predicates -/

/-- A character list free of backslashes. -/
def slashOnlyL (l : List Char) : Prop := '\\' ∉ l

/-- A string free of backslashes: slash is then its only separator. -/
def slashOnly (s : String) : Prop := slashOnlyL s.toList

instance (l : List Char) : Decidable (slashOnlyL l) :=
  inferInstanceAs (Decidable ('\\' ∉ l))

instance (s : String) : Decidable (slashOnly s) :=
  inferInstanceAs (Decidable ('\\' ∉ s.toList))

/-! ## Concrete fixtures used by witnesses and counterexamples -/

/-- A plain Linux configuration: namespace `ns`, no separator policy, no
fail-if-absent, default backend. -/
def cfgLin : RestorerCfg := ⟨OS.linux, "ns", false, false, "", ""⟩

/-- Environment whose primary key generator yields `k`, whose store does not
support listing, and whose tasks both succeed (destination `a` extracts 10
bytes, every other destination 20). -/
def envOk : Env :=
  ⟨some (Except.ok "k"), none, fun _ => ListOutcome.notImplemented,
   fun _ => Except.ok (),
   fun d _ => if d = "a" then Except.ok 10 else Except.ok 20,
   ⟨false, false⟩⟩

/-- Like `envOk` but the task for destination `a` fails extraction. -/
def envFail : Env :=
  ⟨some (Except.ok "k"), none, fun _ => ListOutcome.notImplemented,
   fun _ => Except.ok (),
   fun d _ => if d = "a" then Except.error "boom" else Except.ok 20,
   ⟨false, false⟩⟩

/-- Harness-backend configuration with account `acct`. -/
def cfgHarness : RestorerCfg := ⟨OS.linux, "ns", false, false, "harness", "acct"⟩

/-- Environment for the harness discovery scenario: listing `ns/k` finds the
single remote entry `acct/intel/ns/k/dir1`. -/
def envHarness : Env :=
  ⟨some (Except.ok "k"), none,
   fun p => if p = "ns/k" then ListOutcome.ok ["acct/intel/ns/k/dir1"]
            else ListOutcome.failure "wrong",
   fun _ => Except.ok (), fun _ _ => Except.ok 5, ⟨false, false⟩⟩

/-- A Windows configuration with namespace `ns`. -/
def cfgWin : RestorerCfg := ⟨OS.windows, "ns", false, false, "", ""⟩

/-- Environment for the Windows scenario. -/
def envWin : Env :=
  ⟨some (Except.ok "k"), none, fun _ => ListOutcome.notImplemented,
   fun _ => Except.ok (), fun _ _ => Except.ok 1, ⟨false, false⟩⟩

/-- Environment whose store supports listing but holds nothing under `ns/k`. -/
def envEmptyList : Env :=
  ⟨some (Except.ok "k"), none,
   fun p => if p = "ns/k" then ListOutcome.ok [] else ListOutcome.failure "wrong",
   fun _ => Except.ok (), fun _ _ => Except.ok 5, ⟨false, false⟩⟩

/-! ## Helper lemmas -/

theorem Restore_key (cfg : RestorerCfg) (env : Env) (dsts : List String) {key : String}
    (hkey : generateKey env.g env.fg = GenResult.ok key) :
    Restore cfg env dsts = afterKey cfg env dsts key := by
  unfold Restore
  rw [hkey]

theorem afterKey_run (cfg : RestorerCfg) (env : Env) (dsts : List String) (key : String)
    {D : List String} (hdisc : discoverDsts cfg env.list key dsts = Except.ok D) :
    afterKey cfg env dsts key = runTasks cfg env (discoveryCalls cfg dsts key) key D := by
  unfold afterKey
  rw [hdisc]

theorem foldl_collectErr (env : Env) (ts : List (String × String)) (acc : MultiError) :
    (ts.foldl (collectErr env) acc).errors = acc.errors ++ taskFailures env ts := by
  induction ts generalizing acc with
  | nil => simp [taskFailures]
  | cons t ts ih =>
    rw [List.foldl_cons, ih]
    cases h : (restore env t.1 t.2).1 with
    | error e => simp [collectErr, taskFailures, h, MultiError.add]
    | ok w => simp [collectErr, taskFailures, h]

theorem tasksOf_map_fst (cfg : RestorerCfg) (key : String) (D : List String) :
    (tasksOf cfg key D).map Prod.fst = D.map (fun d => srcOf cfg key d) := by
  simp [tasksOf, List.map_map, Function.comp]

theorem runTasks_eq (cfg : RestorerCfg) (env : Env) (lc : List String) (key : String)
    (D : List String) :
    runTasks cfg env lc key D =
      ((if taskFailures env (tasksOf cfg key D) = [] then RestoreResult.ok
        else RestoreResult.aggregated (taskFailures env (tasksOf cfg key D))),
       ⟨lc, tasksOf cfg key D, D.map (fun d => srcOf cfg key d),
        taskMetaWrites env (tasksOf cfg key D)⟩) := by
  unfold runTasks
  dsimp only
  have h := foldl_collectErr env (tasksOf cfg key D) ⟨[]⟩
  simp only [List.nil_append] at h
  rw [tasksOf_map_fst]
  unfold MultiError.err
  rw [h]
  by_cases hf : taskFailures env (tasksOf cfg key D) = []
  · simp [hf]
  · simp [hf]

theorem taskMetaWrites_eq_filterMap (cfg : RestorerCfg) (env : Env) (key : String)
    (D : List String) :
    taskMetaWrites env (tasksOf cfg key D) =
      D.filterMap (fun d =>
        match env.extractRes d (env.getRes (srcOf cfg key d)) with
        | Except.ok w => some w
        | Except.error _ => none) := by
  induction D with
  | nil => rfl
  | cons d D ih =>
    simp only [tasksOf, List.map_cons, List.filterMap_cons]
    rw [taskMetaWrites]
    have htask : List.map (fun d => (srcOf cfg key d, d)) D = tasksOf cfg key D := rfl
    cases h : env.extractRes d (env.getRes (srcOf cfg key d)) with
    | error e => simp [restore, h, htask, ih]
    | ok w => simp [restore, h, htask, ih]

theorem splitSep_ne_nil (os : OS) (l : List Char) : splitSep os l ≠ [] := by
  induction l with
  | nil => simp [splitSep]
  | cons c cs ih =>
    unfold splitSep
    by_cases h : isSep os c
    · simp [h]
    · simp only [h, Bool.false_eq_true, if_false]
      cases hs : splitSep os cs with
      | nil => simp
      | cons g gs => simp

theorem mem_splitSep (os : OS) {l g : List Char} {c : Char}
    (hg : g ∈ splitSep os l) (hc : c ∈ g) : c ∈ l := by
  induction l generalizing g with
  | nil =>
    simp [splitSep] at hg
    subst hg
    simp at hc
  | cons a as ih =>
    unfold splitSep at hg
    by_cases h : isSep os a
    · simp only [h, if_true] at hg
      rcases List.mem_cons.mp hg with rfl | hg2
      · simp at hc
      · exact List.mem_cons_of_mem a (ih hg2 hc)
    · simp only [h, Bool.false_eq_true, if_false] at hg
      cases hs : splitSep os as with
      | nil =>
        rw [hs] at hg
        simp at hg
        subst hg
        rcases List.mem_cons.mp hc with rfl | hc2
        · exact List.mem_cons_self _ _
        · simp at hc2
      | cons g0 gs =>
        rw [hs] at hg
        rcases List.mem_cons.mp hg with rfl | hg2
        · rcases List.mem_cons.mp hc with rfl | hc2
          · exact List.mem_cons_self _ _
          · refine List.mem_cons_of_mem a (ih ?_ hc2)
            rw [hs]
            exact List.mem_cons_self g0 gs
        · refine List.mem_cons_of_mem a (ih ?_ hc)
          rw [hs]
          exact List.mem_cons_of_mem g0 hg2

theorem mem_cleanStack {rooted : Bool} {gs acc : List (List Char)} {g : List Char}
    (h : g ∈ cleanStack rooted acc gs) : g ∈ acc ∨ g ∈ gs ∨ g = ['.', '.'] := by
  induction gs generalizing acc with
  | nil =>
    simp only [cleanStack] at h
    exact Or.inl (List.mem_reverse.mp h)
  | cons e rest ih =>
    simp only [cleanStack] at h
    by_cases h1 : e = [] ∨ e = ['.']
    · rw [if_pos h1] at h
      rcases ih h with ha | hr | hd
      · exact Or.inl ha
      · exact Or.inr (Or.inl (List.mem_cons_of_mem e hr))
      · exact Or.inr (Or.inr hd)
    · rw [if_neg h1] at h
      by_cases h2 : e = ['.', '.']
      · rw [if_pos h2] at h
        cases acc with
        | nil =>
          cases rooted with
          | true =>
            simp only [if_true] at h
            rcases ih h with ha | hr | hd
            · simp at ha
            · exact Or.inr (Or.inl (List.mem_cons_of_mem e hr))
            · exact Or.inr (Or.inr hd)
          | false =>
            simp only [Bool.false_eq_true, if_false] at h
            rcases ih h with ha | hr | hd
            · rcases List.mem_cons.mp ha with rfl | ha2
              · exact Or.inr (Or.inr rfl)
              · simp at ha2
            · exact Or.inr (Or.inl (List.mem_cons_of_mem e hr))
            · exact Or.inr (Or.inr hd)
        | cons top acc2 =>
          dsimp only at h
          by_cases h3 : top = ['.', '.']
          · rw [if_pos h3] at h
            rcases ih h with ha | hr | hd
            · rcases List.mem_cons.mp ha with rfl | ha2
              · exact Or.inr (Or.inr h2)
              · exact Or.inl ha2
            · exact Or.inr (Or.inl (List.mem_cons_of_mem e hr))
            · exact Or.inr (Or.inr hd)
          · rw [if_neg h3] at h
            rcases ih h with ha | hr | hd
            · exact Or.inl (List.mem_cons_of_mem top ha)
            · exact Or.inr (Or.inl (List.mem_cons_of_mem e hr))
            · exact Or.inr (Or.inr hd)
      · rw [if_neg h2] at h
        rcases ih h with ha | hr | hd
        · rcases List.mem_cons.mp ha with rfl | ha2
          · exact Or.inr (Or.inl (List.mem_cons_self _ _))
          · exact Or.inl ha2
        · exact Or.inr (Or.inl (List.mem_cons_of_mem e hr))
        · exact Or.inr (Or.inr hd)

theorem mem_joinSep {sep : Char} {gs : List (List Char)} {c : Char}
    (h : c ∈ joinSep sep gs) : c = sep ∨ ∃ g, g ∈ gs ∧ c ∈ g := by
  induction gs with
  | nil => simp [joinSep] at h
  | cons g gs ih =>
    cases gs with
    | nil =>
      rw [joinSep] at h
      exact Or.inr ⟨g, List.mem_cons_self _ _, h⟩
    | cons g2 gs2 =>
      have hj : joinSep sep (g :: g2 :: gs2) = g ++ sep :: joinSep sep (g2 :: gs2) := rfl
      rw [hj] at h
      rcases List.mem_append.mp h with hc | hc
      · exact Or.inr ⟨g, List.mem_cons_self _ _, hc⟩
      · rcases List.mem_cons.mp hc with rfl | hc2
        · exact Or.inl rfl
        · rcases ih hc2 with hs | ⟨g0, hg0, hcg⟩
          · exact Or.inl hs
          · exact Or.inr ⟨g0, List.mem_cons_of_mem g hg0, hcg⟩

theorem mem_cleanL {os : OS} {l : List Char} {c : Char} (h : c ∈ cleanL os l) :
    c = sepChar os ∨ c = '.' ∨ c ∈ l := by
  cases l with
  | nil =>
    simp [cleanL] at h
    exact Or.inr (Or.inl h)
  | cons a as =>
    rw [cleanL] at h
    have fromBody : ∀ {c2 : Char} {rooted : Bool},
        c2 ∈ joinSep (sepChar os) (cleanStack rooted [] (splitSep os (a :: as))) →
        c2 = sepChar os ∨ c2 = '.' ∨ c2 ∈ a :: as := by
      intro c2 rooted hc2
      rcases mem_joinSep hc2 with hs | ⟨g, hg, hcg⟩
      · exact Or.inl hs
      · rcases mem_cleanStack hg with ha | hgs | hdd
        · simp at ha
        · exact Or.inr (Or.inr (mem_splitSep os hgs hcg))
        · subst hdd
          rcases List.mem_cons.mp hcg with rfl | hcg2
          · exact Or.inr (Or.inl rfl)
          · rcases List.mem_cons.mp hcg2 with rfl | hcg3
            · exact Or.inr (Or.inl rfl)
            · simp at hcg3
    cases hr : isSep os a with
    | true =>
      simp only [hr] at h
      rw [if_pos trivial] at h
      rcases List.mem_cons.mp h with rfl | h2
      · exact Or.inl rfl
      · exact fromBody h2
    | false =>
      simp only [hr] at h
      rw [if_neg Bool.false_ne_true] at h
      by_cases hb : joinSep (sepChar os) (cleanStack false [] (splitSep os (a :: as))) = []
      · rw [if_pos hb] at h
        rcases List.mem_cons.mp h with rfl | h2
        · exact Or.inr (Or.inl rfl)
        · simp at h2
      · rw [if_neg hb] at h
        exact fromBody h

theorem slashOnly_filepathClean_linux {s : String} (h : slashOnly s) :
    slashOnly (filepathClean OS.linux s) := by
  intro hmem
  rcases mem_cleanL hmem with hs | hdot | hin
  · exact absurd hs (by decide)
  · exact absurd hdot (by decide)
  · exact h hin

theorem slashOnly_goJoin_linux {es : List String} (h : ∀ s ∈ es, slashOnly s) :
    slashOnly (goJoin OS.linux es) := by
  unfold goJoin
  cases hd : es.dropWhile (fun e => e = "") with
  | nil => decide
  | cons e0 es0 =>
    apply slashOnly_filepathClean_linux
    intro hmem
    rcases mem_joinSep hmem with hs | ⟨g, hg, hcg⟩
    · exact absurd hs (by decide)
    · rcases List.mem_map.mp hg with ⟨s, hsmem, rfl⟩
      have hs2 : s ∈ es := by
        refine List.Sublist.mem ?_ (List.dropWhile_sublist (fun e => e = ""))
        rw [hd]
        exact hsmem
      exact h s hs2 hcg

theorem slashOnly_append {s t : String} (hs : slashOnly s) (ht : slashOnly t) :
    slashOnly (s ++ t) := by
  intro hmem
  have hdata : (s ++ t).toList = s.toList ++ t.toList := String.data_append s t
  rw [hdata] at hmem
  rcases List.mem_append.mp hmem with h | h
  · exact hs h
  · exact ht h

theorem slashOnly_trimPfx {s : String} (p : String) (hs : slashOnly s) :
    slashOnly (trimPfx s p) := by
  intro hmem
  have hc2 : '\\' ∈ trimPfxL s.toList p.toList := hmem
  unfold trimPfxL at hc2
  by_cases hc : p.toList.isPrefixOf s.toList
  · rw [if_pos hc] at hc2
    exact hs (List.drop_subset _ _ hc2)
  · rw [if_neg hc] at hc2
    exact hs hc2

theorem slashOnly_nspaceOf {cfg : RestorerCfg} (hos : cfg.goos = OS.linux)
    (h : slashOnly cfg.nspace) : slashOnly (nspaceOf cfg) := by
  unfold nspaceOf
  rw [hos]
  have hts : filepathToSlash OS.linux (filepathClean OS.linux cfg.nspace) =
      filepathClean OS.linux cfg.nspace := rfl
  rw [hts]
  exact slashOnly_filepathClean_linux h

theorem slashOnly_discoveryPfx {cfg : RestorerCfg} {key : String}
    (hos : cfg.goos = OS.linux) (hns : slashOnly cfg.nspace) (hk : slashOnly key) :
    slashOnly (discoveryPfx cfg key) := by
  have hp : slashOnly (goJoin cfg.goos [nspaceOf cfg, key]) := by
    rw [hos]
    apply slashOnly_goJoin_linux
    intro s hs
    rcases List.mem_cons.mp hs with rfl | hs2
    · exact slashOnly_nspaceOf hos hns
    · rcases List.mem_cons.mp hs2 with rfl | hs3
      · exact hk
      · simp at hs3
  unfold discoveryPfx
  dsimp only
  split
  · apply slashOnly_append hp
    rw [hos]
    decide
  · exact hp

theorem slashOnly_srcOf {cfg : RestorerCfg} {key dst : String}
    (hos : cfg.goos = OS.linux) (hns : slashOnly cfg.nspace) (hk : slashOnly key)
    (hd : slashOnly dst) : slashOnly (srcOf cfg key dst) := by
  unfold srcOf
  rw [hos]
  apply slashOnly_goJoin_linux
  intro s hs
  rcases List.mem_cons.mp hs with rfl | hs2
  · exact slashOnly_nspaceOf hos hns
  · rcases List.mem_cons.mp hs2 with rfl | hs3
    · exact hk
    · rcases List.mem_cons.mp hs3 with rfl | hs4
      · exact hd
      · simp at hs4

theorem mem_discoveryCalls {cfg : RestorerCfg} {dsts : List String} {key p : String}
    (hp : p ∈ discoveryCalls cfg dsts key) : p = discoveryPfx cfg key := by
  unfold discoveryCalls at hp
  split at hp
  · simpa using hp
  · simp at hp

theorem discoverDsts_slashOnly (cfg : RestorerCfg) (lf : String → ListOutcome)
    (key : String) (dsts D : List String)
    (hd : ∀ d ∈ dsts, slashOnly d)
    (hent : ∀ p es, lf p = ListOutcome.ok es → ∀ e ∈ es, slashOnly e)
    (hdisc : discoverDsts cfg lf key dsts = Except.ok D) :
    ∀ d ∈ D, slashOnly d := by
  unfold discoverDsts at hdisc
  by_cases he : dsts.isEmpty
  · rw [if_pos he] at hdisc
    dsimp only at hdisc
    cases hl : lf (discoveryPfx cfg key) with
    | ok entries =>
      rw [hl] at hdisc
      dsimp only at hdisc
      by_cases hf : cfg.failIfKeyNotPresent && entries.isEmpty
      · rw [if_pos hf] at hdisc
        cases hdisc
      · rw [if_neg hf] at hdisc
        injection hdisc with hD
        subst hD
        intro d hdmem
        rcases List.mem_append.mp hdmem with h1 | h2
        · exact hd d h1
        · unfold deriveDsts at h2
          rcases List.mem_map.mp h2 with ⟨e, hemem, rfl⟩
          have he2 : slashOnly e := hent _ _ hl e hemem
          split
          · exact slashOnly_trimPfx _ he2
          · exact slashOnly_trimPfx _ he2
    | notImplemented =>
      rw [hl] at hdisc
      dsimp only at hdisc
      injection hdisc with hD
      subst hD
      exact hd
    | failure e =>
      rw [hl] at hdisc
      dsimp only at hdisc
      cases hdisc
  · rw [if_neg he] at hdisc
    injection hdisc with hD
    subst hD
    exact hd

theorem isPrefixOf_self (l : List Char) : l.isPrefixOf l = true := by
  induction l with
  | nil => rfl
  | cons a as ih => simp [List.isPrefixOf, ih]

theorem trimPfxL_eq_nil (s p : List Char) : trimPfxL s p = [] ↔ s = p ∨ s = [] := by
  induction p generalizing s with
  | nil => simp [trimPfxL, List.isPrefixOf]
  | cons a p ih =>
    cases s with
    | nil => simp [trimPfxL, List.isPrefixOf]
    | cons b s =>
      by_cases hab : a = b
      · subst hab
        by_cases hps : p.isPrefixOf s = true
        · have ihs := ih s
          simp [trimPfxL, List.isPrefixOf, hps] at ihs ⊢
          rw [ihs]
          constructor
          · rintro (rfl | rfl)
            · rfl
            · cases p with
              | nil => rfl
              | cons x xs => simp [List.isPrefixOf] at hps
          · intro h
            exact Or.inl h
        · simp [trimPfxL, List.isPrefixOf, hps]
          intro hsp
          apply hps
          rw [hsp]
          exact isPrefixOf_self _
      · have hcond : ((a :: p).isPrefixOf (b :: s)) = false := by
          simp [List.isPrefixOf]
          intro h
          exact absurd h hab
        simp [trimPfxL, hcond]
        intro h
        exact absurd h.symm hab

theorem stringMk_eq_empty (l : List Char) : String.mk l = "" ↔ l = [] :=
  ⟨fun h => congrArg String.data h, fun h => by rw [h]⟩

theorem string_eq_iff (s t : String) : s = t ↔ s.toList = t.toList := by
  constructor
  · intro h; rw [h]
  · intro h
    cases s with
    | mk a =>
      cases t with
      | mk b => exact congrArg String.mk h

theorem restore_metaEnv (env : Env) (me2 : MetaEnv) (src dst : String) :
    restore { env with metaEnv := me2 } src dst = restore env src dst := by
  unfold restore
  cases h : env.extractRes dst (env.getRes src) with
  | error e => simp [h]
  | ok w => simp [h]

/-! ## Claims -/

/-- C4: if the primary key generator fails and a fallback generator is
configured, key resolution returns the fallback's result — the fallback's
key and no error when the fallback succeeds (the primary's error is not
propagated), and the fallback's error when the fallback also fails. -/
theorem generateKey_fallback_result (e : String) :
    (∀ k, generateKey (some (Except.error e)) (some (Except.ok k)) = GenResult.ok k) ∧
    (∀ e2, generateKey (some (Except.error e)) (some (Except.error e2)) = GenResult.err e2) :=
  ⟨fun _ => rfl, fun _ => rfl⟩

/-- C5 counterexample: with no primary generator configured — even with a
healthy fallback — key resolution does not return an error value at all: the
Go method call on the nil `key.Generator` interface panics.  The claim's
"ordinary error result, not a crash" fails for the nil-primary case. -/
theorem generateKey_nil_primary_cex :
    generateKey none (some (Except.ok "fallback-key")) = GenResult.crashes ∧
    ∀ e, generateKey none (some (Except.ok "fallback-key")) ≠ GenResult.err e :=
  ⟨rfl, fun _ h => GenResult.noConfusion h⟩

/-- C5 amended: key resolution returns an error exactly when the primary
generator fails and either no fallback is configured or the fallback also
fails; when no primary generator is configured the call crashes (nil
interface dereference) instead of returning an error. -/
theorem generateKey_error_cases :
    (∀ fg, generateKey none fg = GenResult.crashes) ∧
    (∀ gr fg, (∃ e, generateKey (some gr) fg = GenResult.err e) ↔
      ((∃ e, gr = Except.error e) ∧
        (fg = none ∨ ∃ e2, fg = some (Except.error e2)))) := by
  constructor
  · intro fg; rfl
  · intro gr fg
    constructor
    · rintro ⟨e, he⟩
      cases gr with
      | ok k => exact GenResult.noConfusion he
      | error e1 =>
        refine ⟨⟨e1, rfl⟩, ?_⟩
        cases fg with
        | none => exact Or.inl rfl
        | some fr =>
          cases fr with
          | ok k => exact GenResult.noConfusion he
          | error e2 => exact Or.inr ⟨e2, rfl⟩
    · rintro ⟨⟨e1, rfl⟩, hfg⟩
      rcases hfg with rfl | ⟨e2, rfl⟩
      · exact ⟨e1, rfl⟩
      · exact ⟨e2, rfl⟩

/-- C1: with the key resolved and discovery succeeding with destinations
`D`, every per-destination task performs its fetch (the trace of storage
`Get` calls covers all of `D`, failures of sibling tasks notwithstanding —
no early cancellation), `Restore` succeeds iff no task failed, and when any
failed the result is the composite of every individual wrapped failure. -/
theorem Restore_aggregates_all_failures (cfg : RestorerCfg) (env : Env)
    (dsts : List String) (key : String) (D : List String)
    (hkey : generateKey env.g env.fg = GenResult.ok key)
    (hdisc : discoverDsts cfg env.list key dsts = Except.ok D) :
    (Restore cfg env dsts).2.gets = D.map (fun d => srcOf cfg key d) ∧
    ((Restore cfg env dsts).1 = RestoreResult.ok ↔
      taskFailures env (tasksOf cfg key D) = []) ∧
    (taskFailures env (tasksOf cfg key D) ≠ [] →
      (Restore cfg env dsts).1 =
        RestoreResult.aggregated (taskFailures env (tasksOf cfg key D))) := by
  rw [Restore_key cfg env dsts hkey, afterKey_run cfg env dsts key hdisc,
    runTasks_eq]
  by_cases hf : taskFailures env (tasksOf cfg key D) = []
  · simp [hf]
  · simp [hf]

/-- C1 witness: two destinations, the first fails and the second succeeds;
both fetches run, and the outcome is the aggregate of the one failure. -/
theorem Restore_aggregates_all_failures_w :
    (Restore cfgLin envFail ["a", "b"]).2.gets =
      ["a", "b"].map (fun d => srcOf cfgLin "k" d) ∧
    ((Restore cfgLin envFail ["a", "b"]).1 = RestoreResult.ok ↔
      taskFailures envFail (tasksOf cfgLin "k" ["a", "b"]) = []) ∧
    (taskFailures envFail (tasksOf cfgLin "k" ["a", "b"]) ≠ [] →
      (Restore cfgLin envFail ["a", "b"]).1 =
        RestoreResult.aggregated (taskFailures envFail (tasksOf cfgLin "k" ["a", "b"]))) :=
  Restore_aggregates_all_failures cfgLin envFail ["a", "b"] "k" ["a", "b"] rfl rfl

/-- C6: when the storage `List` returns the not-implemented sentinel,
discovery is not a failure and contributes nothing — the caller-provided
destination list passes through unchanged and the launched tasks are
exactly the caller's destinations. -/
theorem notImplemented_keeps_dsts (cfg : RestorerCfg) (env : Env) (key : String)
    (dsts : List String)
    (hlist : env.list (discoveryPfx cfg key) = ListOutcome.notImplemented) :
    discoverDsts cfg env.list key dsts = Except.ok dsts ∧
    (generateKey env.g env.fg = GenResult.ok key →
      (Restore cfg env dsts).2.targets = tasksOf cfg key dsts) := by
  have hd : discoverDsts cfg env.list key dsts = Except.ok dsts := by
    unfold discoverDsts
    by_cases he : dsts.isEmpty
    · simp [he, hlist]
    · simp [he]
  refine ⟨hd, fun hkey => ?_⟩
  rw [Restore_key cfg env dsts hkey, afterKey_run cfg env dsts key hd, runTasks_eq]

/-- C6 witness: a store without listing support and two explicit
destinations. -/
theorem notImplemented_keeps_dsts_w :
    discoverDsts cfgLin envOk.list "k" ["a", "b"] = Except.ok ["a", "b"] ∧
    (generateKey envOk.g envOk.fg = GenResult.ok "k" →
      (Restore cfgLin envOk ["a", "b"]).2.targets = tasksOf cfgLin "k" ["a", "b"]) :=
  notImplemented_keeps_dsts cfgLin envOk "k" ["a", "b"] rfl

/-- C10: calling `Restore` with no destinations while the store either does
not support listing or lists nothing (with the fail-if-absent policy
disabled) returns success having launched no task, fetched nothing and
written no metadata; the only side effect is the single `List` call. -/
theorem empty_restore_returns_ok (cfg : RestorerCfg) (env : Env) (key : String)
    (hkey : generateKey env.g env.fg = GenResult.ok key)
    (hlist : env.list (discoveryPfx cfg key) = ListOutcome.notImplemented ∨
      (env.list (discoveryPfx cfg key) = ListOutcome.ok [] ∧
        cfg.failIfKeyNotPresent = false)) :
    Restore cfg env [] = (RestoreResult.ok, ⟨[discoveryPfx cfg key], [], [], []⟩) := by
  have hd : discoverDsts cfg env.list key [] = Except.ok [] := by
    unfold discoverDsts
    rcases hlist with h | ⟨h, hf⟩
    · simp [h]
    · simp [h, hf, deriveDsts]
  rw [Restore_key cfg env [] hkey, afterKey_run cfg env [] key hd, runTasks_eq]
  simp [tasksOf, taskFailures, taskMetaWrites, discoveryCalls]

/-- C2 counterexample: with two destinations both succeeding (10 and 20
bytes) the metadata artifact is written twice — once from inside each
concurrent task, each with that task's own size, never the invocation total
30 — refuting "written at most once, by the coordinator alone, with the
total restored bytes"; and with one destination failing the successful
sibling still writes metadata, refuting "only when no failures were
recorded". -/
theorem metadata_write_per_task_cex :
    (Restore cfgLin envOk ["a", "b"]).2.metaWrites = [10, 20] ∧
    (Restore cfgLin envOk ["a", "b"]).1 = RestoreResult.ok ∧
    (Restore cfgLin envFail ["a", "b"]).2.metaWrites = [20] ∧
    (Restore cfgLin envFail ["a", "b"]).1 ≠ RestoreResult.ok := by
  refine ⟨rfl, rfl, rfl, ?_⟩
  decide

/-- C2 amended: the metadata artifact is written once per successful
per-destination extraction, from inside that task (before the join),
recording that task's own extracted byte count; nothing is written for a
failed task, no single total is written by the coordinator, and successful
tasks write even when sibling tasks fail. -/
theorem metadata_written_per_successful_task (cfg : RestorerCfg) (env : Env)
    (dsts : List String) (key : String) (D : List String)
    (hkey : generateKey env.g env.fg = GenResult.ok key)
    (hdisc : discoverDsts cfg env.list key dsts = Except.ok D) :
    (Restore cfg env dsts).2.metaWrites =
      D.filterMap (fun d =>
        match env.extractRes d (env.getRes (srcOf cfg key d)) with
        | Except.ok w => some w
        | Except.error _ => none) := by
  rw [Restore_key cfg env dsts hkey, afterKey_run cfg env dsts key hdisc,
    runTasks_eq]
  exact taskMetaWrites_eq_filterMap cfg env key D

/-- C2 amended witness: one failing and one succeeding destination. -/
theorem metadata_written_per_successful_task_w :
    (Restore cfgLin envFail ["a", "b"]).2.metaWrites =
      ["a", "b"].filterMap (fun d =>
        match envFail.extractRes d (envFail.getRes (srcOf cfgLin "k" d)) with
        | Except.ok w => some w
        | Except.error _ => none) :=
  metadata_written_per_successful_task cfgLin envFail ["a", "b"] "k" ["a", "b"] rfl rfl

/-- C3 counterexample: on the harness backend (account `acct`, namespace
`ns`, key `k`) the discovered entry `acct/intel/ns/k/dir1` is stripped of
routing and cache prefixes to the local destination `dir1` — but the remote
source used for its download is `ns/k/dir1`: the routing prefix
`acct/intel/` is NOT included again in the download source at this layer. -/
theorem harness_source_lacks_routing_cex :
    (Restore cfgHarness envHarness []).2.targets = [("ns/k/dir1", "dir1")] ∧
    ((cfgHarness.accountID ++ "/intel/").toList.isPrefixOf "ns/k/dir1".toList) = false := by
  refine ⟨rfl, ?_⟩
  decide

/-- C3 amended: on the harness backend the routing prefix
`accountID ++ "/intel/"` is prepended to the cache prefix before stripping,
so discovered local destinations have both prefixes removed; but the remote
source used to download each entry is rebuilt as
`join(namespace, key, dst)` only — the routing prefix is not re-included by
the restorer (re-prefixing, if any, is the storage backend's concern). -/
theorem harness_routing_strip_rebuild (cfg : RestorerCfg) (env : Env) (key : String)
    (entries : List String)
    (hb : cfg.backend = "harness")
    (hkey : generateKey env.g env.fg = GenResult.ok key)
    (hlist : env.list (discoveryPfx cfg key) = ListOutcome.ok entries)
    (hfail : cfg.failIfKeyNotPresent = false) :
    discoverDsts cfg env.list key [] =
      Except.ok (deriveDsts cfg (cfg.accountID ++ "/intel/" ++ discoveryPfx cfg key) entries) ∧
    (Restore cfg env []).2.targets =
      (deriveDsts cfg (cfg.accountID ++ "/intel/" ++ discoveryPfx cfg key) entries).map
        (fun d => (srcOf cfg key d, d)) := by
  have hd : discoverDsts cfg env.list key [] =
      Except.ok (deriveDsts cfg (cfg.accountID ++ "/intel/" ++ discoveryPfx cfg key) entries) := by
    unfold discoverDsts routedPfx
    simp [hlist, hfail, hb]
  refine ⟨hd, ?_⟩
  rw [Restore_key cfg env [] hkey, afterKey_run cfg env [] key hd, runTasks_eq]
  rfl

/-- C3 amended witness: the concrete harness discovery scenario. -/
theorem harness_routing_strip_rebuild_w :
    discoverDsts cfgHarness envHarness.list "k" [] =
      Except.ok (deriveDsts cfgHarness
        (cfgHarness.accountID ++ "/intel/" ++ discoveryPfx cfgHarness "k")
        ["acct/intel/ns/k/dir1"]) ∧
    (Restore cfgHarness envHarness []).2.targets =
      (deriveDsts cfgHarness
        (cfgHarness.accountID ++ "/intel/" ++ discoveryPfx cfgHarness "k")
        ["acct/intel/ns/k/dir1"]).map
        (fun d => (srcOf cfgHarness "k" d, d)) :=
  harness_routing_strip_rebuild cfgHarness envHarness "k" ["acct/intel/ns/k/dir1"]
    rfl rfl rfl rfl

/-- C7 counterexample: on a Windows host the remote source handed to the
storage `Get` for namespace `ns`, key `k`, destination `d` is `ns\\k\\d` —
built with the native backslash separator, refuting "remote paths are
slash-separated on every host OS". -/
theorem windows_remote_path_backslash_cex :
    (Restore cfgWin envWin ["d"]).2.gets = ["ns\\k\\d"] ∧
    ('\\' ∈ ("ns\\k\\d").toList) := by
  refine ⟨rfl, ?_⟩
  decide

/-- C7 amended: remote paths are built with the host separator, not always
with slashes.  On non-Windows hosts, whenever the configuration, key,
caller destinations and listed entry paths are backslash-free, every prefix
passed to the storage `List` and every remote source passed to the storage
`Get` is backslash-free (slash-separated); on Windows the native backslash
separator is used instead (see the counterexample). -/
theorem linux_remote_paths_slash_only (cfg : RestorerCfg) (env : Env)
    (dsts : List String) (key : String)
    (hos : cfg.goos = OS.linux)
    (hkey : generateKey env.g env.fg = GenResult.ok key)
    (hns : slashOnly cfg.nspace) (hk : slashOnly key)
    (hd : ∀ d ∈ dsts, slashOnly d)
    (hent : ∀ p es, env.list p = ListOutcome.ok es → ∀ e ∈ es, slashOnly e) :
    (∀ p ∈ (Restore cfg env dsts).2.listCalls, slashOnly p) ∧
    (∀ p ∈ (Restore cfg env dsts).2.gets, slashOnly p) := by
  rw [Restore_key cfg env dsts hkey]
  unfold afterKey
  cases hdisc : discoverDsts cfg env.list key dsts with
  | error r =>
    dsimp only
    constructor
    · intro p hp
      rw [mem_discoveryCalls hp]
      exact slashOnly_discoveryPfx hos hns hk
    · intro p hp
      simp at hp
  | ok D =>
    dsimp only
    rw [runTasks_eq]
    constructor
    · intro p hp
      rw [mem_discoveryCalls hp]
      exact slashOnly_discoveryPfx hos hns hk
    · intro p hp
      rcases List.mem_map.mp hp with ⟨d, hdmem, rfl⟩
      have hds : slashOnly d :=
        discoverDsts_slashOnly cfg env.list key dsts D hd hent hdisc d hdmem
      exact slashOnly_srcOf hos hns hk hds

/-- C7 amended witness: the two-destination Linux scenario; all remote
paths are backslash-free. -/
theorem linux_remote_paths_slash_only_w :
    (∀ p ∈ (Restore cfgLin envOk ["a", "b"]).2.listCalls, slashOnly p) ∧
    (∀ p ∈ (Restore cfgLin envOk ["a", "b"]).2.gets, slashOnly p) :=
  linux_remote_paths_slash_only cfgLin envOk ["a", "b"] "k" rfl rfl (by decide)
    (by decide) (by decide) (fun p es h => ListOutcome.noConfusion h)

/-- C8 counterexample: nothing enforces non-emptiness of local
destinations — a caller-supplied empty destination is used verbatim, giving
the restore target `("ns/k", "")` whose local destination is empty. -/
theorem empty_destination_allowed_cex :
    (Restore cfgLin envOk [""]).2.targets = [("ns/k", "")] := rfl

/-- C8 amended: local destinations are taken as given, with no
non-emptiness check: explicit caller destinations pass through verbatim
(so one may be empty), and the prefix-trimming step that derives a
discovered destination yields the empty string exactly when the listed
entry path equals the stripped prefix (or is itself empty). -/
theorem destination_emptiness (cfg : RestorerCfg) (env : Env) (dsts : List String)
    (key : String)
    (hkey : generateKey env.g env.fg = GenResult.ok key)
    (hne : dsts ≠ []) :
    (Restore cfg env dsts).2.targets.map Prod.snd = dsts ∧
    (∀ e q : String, trimPfx e q = "" ↔ e = q ∨ e = "") := by
  have hd : discoverDsts cfg env.list key dsts = Except.ok dsts := by
    have hemp : dsts.isEmpty = false := by
      cases dsts with
      | nil => exact absurd rfl hne
      | cons d ds => rfl
    unfold discoverDsts
    simp [hemp]
  constructor
  · rw [Restore_key cfg env dsts hkey, afterKey_run cfg env dsts key hd, runTasks_eq]
    simp only [tasksOf, List.map_map]
    have hid : (Prod.snd ∘ fun d => (srcOf cfg key d, d)) = (id : String → String) := rfl
    rw [hid, List.map_id]
  · intro e q
    have key1 : trimPfx e q = "" ↔ trimPfxL e.toList q.toList = [] :=
      stringMk_eq_empty _
    rw [key1, trimPfxL_eq_nil]
    constructor
    · rintro (h | h)
      · exact Or.inl ((string_eq_iff e q).mpr h)
      · exact Or.inr ((string_eq_iff e "").mpr h)
    · rintro (rfl | rfl)
      · exact Or.inl rfl
      · exact Or.inr rfl

/-- C8 amended witness: two non-empty caller destinations pass through
verbatim, and the trimming characterization holds. -/
theorem destination_emptiness_w :
    (Restore cfgLin envOk ["a", "b"]).2.targets.map Prod.snd = ["a", "b"] ∧
    (∀ e q : String, trimPfx e q = "" ↔ e = q ∨ e = "") :=
  destination_emptiness cfgLin envOk ["a", "b"] "k" rfl (by decide)

/-- C9: a failing metadata write never changes the restore outcome — the
whole `Restore` call is unaffected by the file-system behaviour of
`writeCacheMetadata` (whose result line 149 discards), a task whose
extraction succeeded reports success, and the write can genuinely fail. -/
theorem metadata_write_failure_nonfatal (cfg : RestorerCfg) (env : Env)
    (dsts : List String) (me2 : MetaEnv) :
    Restore cfg { env with metaEnv := me2 } dsts = Restore cfg env dsts ∧
    (∀ src dst w, env.extractRes dst (env.getRes src) = Except.ok w →
      (restore env src dst).1 = Except.ok w) ∧
    writeCacheMetadata ⟨false, true⟩ ⟨0⟩ PLUGIN_CACHE_INTEL_FILE_NAME =
      Except.error ("failed to write cache metrics to cache metrics file " ++
        PLUGIN_CACHE_INTEL_FILE_NAME) := by
  have hcoll : collectErr { env with metaEnv := me2 } = collectErr env := by
    funext acc t
    unfold collectErr
    rw [restore_metaEnv]
  have hmw : ∀ ts, taskMetaWrites { env with metaEnv := me2 } ts = taskMetaWrites env ts := by
    intro ts
    induction ts with
    | nil => rfl
    | cons t ts ih =>
      rw [taskMetaWrites, taskMetaWrites, restore_metaEnv, ih]
  refine ⟨?_, ?_, rfl⟩
  · unfold Restore afterKey runTasks
    simp only [hcoll, hmw]
  · intro src dst w h
    simp [restore, h]

/-- C9 witness: a failing-writes file system leaves the two-destination
restore unchanged, and a task with a 20-byte extraction reports success. -/
theorem metadata_write_failure_nonfatal_w :
    Restore cfgLin { envOk with metaEnv := ⟨false, true⟩ } ["a", "b"] =
      Restore cfgLin envOk ["a", "b"] ∧
    (restore envOk "s" "d").1 = Except.ok 20 :=
  ⟨(metadata_write_failure_nonfatal cfgLin envOk ["a", "b"] ⟨false, true⟩).1,
   (metadata_write_failure_nonfatal cfgLin envOk ["a", "b"] ⟨false, true⟩).2.1 "s" "d" 20 rfl⟩

/-- C10 witness: instantiated once with a store that does not support
listing and once with a store that lists nothing. -/
theorem empty_restore_returns_ok_w :
    Restore cfgLin envOk [] =
      (RestoreResult.ok, ⟨[discoveryPfx cfgLin "k"], [], [], []⟩) ∧
    Restore cfgLin envEmptyList [] =
      (RestoreResult.ok, ⟨[discoveryPfx cfgLin "k"], [], [], []⟩) :=
  ⟨empty_restore_returns_ok cfgLin envOk "k" rfl (Or.inl rfl),
   empty_restore_returns_ok cfgLin envEmptyList "k" rfl (Or.inr ⟨by decide, rfl⟩)⟩

end DroneCache
